import Mathlib

/-!
Shallow embedding of the TCP proxy (Ghvstcode/TCP-Proxy) core:
the round-robin load balancer (`pkg/loadBalancer/lb.go`), the health
checker, and the server lifecycle (`pkg/server`): startup binding,
connection routing, and shutdown.

Machine integers are modelled as `Nat` with explicit reduction modulo
`2^64` where the Go code uses `uint64` arithmetic that can wrap.
Operations that can panic in Go (modulo by zero, closing a closed
channel, nil dereference) return `Option`, with `none` marking the
panic.  External effects (the network, the OS) are passed in as
oracle functions so that the control flow of the Go code stays exact.
-/

namespace TCPProxy

/-- Wrap bound of Go `uint64` arithmetic. -/
def U64 : Nat := 2 ^ 64

/-- `Backend` from lb.go: a target address plus its liveness flag.
The `sync.RWMutex` only guards access and has no pure content. -/
structure Backend where
  target : String
  alive : Bool
deriving Repr, DecidableEq

/-- `NewBackend` from lb.go: a fresh backend starts alive. -/
def NewBackend (target : String) : Backend :=
  { target := target, alive := true }

/-- `Backend.SetAlive` from lb.go. -/
def SetAlive (b : Backend) (alive : Bool) : Backend :=
  { b with alive := alive }

/-- `Backend.IsAlive` from lb.go. -/
def IsAlive (b : Backend) : Bool :=
  b.alive

/-- `Backend.GetAddress` from lb.go. -/
def GetAddress (b : Backend) : String :=
  b.target

/-- `ServerPool` from lb.go: the ordered backends and the `uint64`
round-robin cursor `current`. -/
structure ServerPool where
  backends : List Backend
  current : Nat
deriving Repr, DecidableEq

/-- `NewServerPool` from lb.go: one backend per target, in order,
cursor at zero. -/
def NewServerPool (targets : List String) : ServerPool :=
  { backends := targets.map NewBackend, current := 0 }

/-- `ServerPool.NextIndex` from lb.go:
`int(atomic.AddUint64(&s.current, 1) % uint64(bel))`.
The atomic add wraps at `2^64`; when the pool is empty the modulo by
zero panics at runtime in Go, modelled as `none`. -/
def NextIndex (s : ServerPool) : Option (Nat × ServerPool) :=
  let bel := s.backends.length
  if bel = 0 then none
  else
    let cur := (s.current + 1) % U64
    some (cur % bel, { s with current := cur })

/-- The scan loop of `GetNextPeer` from lb.go:
`for i := next; i < l; i++` with `l = len(backends) + next`, checking
`backends[i % len].IsAlive()` and returning the loop counter `i` of the
first alive backend.  The fuel argument counts the remaining iterations
(`l - i`), so the initial fuel is `len(backends)`. -/
def scanFrom (backends : List Backend) (i : Nat) : Nat → Option Nat
  | 0 => none
  | fuel + 1 =>
    if IsAlive (backends.getD (i % backends.length) (NewBackend "")) then some i
    else scanFrom backends (i + 1) fuel

/-- `ServerPool.GetNextPeer` from lb.go: advance the cursor to obtain
`next`, scan one full cycle for an alive backend, store the found index
into `current` when it differs from `next`, and return the backend;
`nil` (here `none` in the inner option) when no backend is alive.
The outer option is the panic of `NextIndex` on an empty pool. -/
def GetNextPeer (s : ServerPool) : Option (Option Backend × ServerPool) :=
  match NextIndex s with
  | none => none
  | some (next, s1) =>
    match scanFrom s1.backends next s1.backends.length with
    | none => some (none, s1)
    | some i =>
      let idx := i % s1.backends.length
      let b := s1.backends.getD idx (NewBackend "")
      if i = next then some (some b, s1)
      else some (some b, { s1 with current := idx })

/-- Iterated selection: the results of `n` consecutive `GetNextPeer`
calls together with the final pool state; `none` if any call panics. -/
def getPeers (s : ServerPool) : Nat → Option (List (Option Backend) × ServerPool)
  | 0 => some ([], s)
  | n + 1 =>
    match GetNextPeer s with
    | none => none
    | some (r, s1) =>
      match getPeers s1 n with
      | none => none
      | some (rs, s2) => some (r :: rs, s2)

/-- Sample pool: first backend dead, second alive, cursor at zero. -/
def poolMixed2 : ServerPool :=
  { backends := [⟨"a", false⟩, ⟨"b", true⟩], current := 0 }

/-- Sample pool: three alive backends, cursor at one. -/
def poolAllAlive3 : ServerPool :=
  { backends := [NewBackend "a", NewBackend "b", NewBackend "c"], current := 1 }

/-- Sample pool: first backend alive, second dead, cursor at two
(the state reached after two selections on an initially all-alive
two-backend pool, after which the health checker marked the second
backend dead). -/
def poolSkipBack : ServerPool :=
  { backends := [⟨"t0", true⟩, ⟨"t1", false⟩], current := 2 }

/-- `App` from pkg/server: the user-provided configuration of one
application (`Name`, `Ports`, `Targets`). -/
structure App where
  name : String
  ports : List Nat
  targets : List String
deriving Repr, DecidableEq

/-- `SigChannel` from pkg/server: a channel of OS signals together
with a `sync.Once`; the model keeps whether the channel has been
closed and whether the once has fired. -/
structure SigChannel where
  closed : Bool
  onceDone : Bool
deriving Repr, DecidableEq

/-- `NewSigChannel` from pkg/server: open channel, once not fired. -/
def NewSigChannel : SigChannel :=
  { closed := false, onceDone := false }

/-- Go `close(ch)`: closing an already-closed channel panics
(modelled as `none`). -/
def closeChan (sc : SigChannel) : Option SigChannel :=
  if sc.closed then none else some { sc with closed := true }

/-- `SigChannel.SafeClose` from pkg/server: `sc.once.Do(func() {
close(sc.C) })`; the body runs only the first time. -/
def SafeClose (sc : SigChannel) : Option SigChannel :=
  if sc.onceDone then some sc
  else
    match closeChan sc with
    | none => none
    | some sc1 => some { sc1 with onceDone := true }

/-- `n` repeated `SafeClose` calls, as by repeated stop requests. -/
def safeCloseIter : Nat → SigChannel → Option SigChannel
  | 0, sc => some sc
  | n + 1, sc =>
    match SafeClose sc with
    | none => none
    | some sc1 => safeCloseIter n sc1

/-- Outcome oracle for the OS networking calls made at startup:
whether `net.ResolveTCPAddr` succeeds for a port and whether
`net.ListenTCP` succeeds for a (possibly nil) resolved address. -/
structure NetOracle where
  resolveOk : Nat → Bool
  listenOk : Option Nat → Bool

/-- One resolve-then-listen step of `NewServer` from pkg/server for a
single port: on resolve error the error is only logged and the nil
address (`none`) is still passed to `net.ListenTCP`; on listen error
the error is only logged and the resulting listener `l` is the nil
pointer, modelled as `none` — the same value for every failed listen;
on success `l` is a freshly allocated pointer, modelled as `some ctr`
where `ctr` counts the listeners allocated so far.  Returns the
listener pointer and the updated allocation counter. -/
def listenStep (o : NetOracle) (port : Nat) (ctr : Nat) : Option Nat × Nat :=
  let addr : Option Nat := if o.resolveOk port then some port else none
  if o.listenOk addr then (some ctr, ctr + 1) else (none, ctr)

/-- Go map assignment `m[k] = v` for the pointer-keyed listener map
`map[*net.TCPListener]string`: overwrite the entry when the key is
already present, append a new entry otherwise. -/
def mapInsert (m : List (Option Nat × String)) (k : Option Nat)
    (v : String) : List (Option Nat × String) :=
  if m.any (fun e => e.1 = k) then
    m.map (fun e => if e.1 = k then (k, v) else e)
  else m ++ [(k, v)]

/-- The per-port loop of `NewServer` from pkg/server for one
application: `s.listener[l] = app.Name` runs unconditionally for every
port, so all failed ports write to the shared nil key. -/
def setupPorts (o : NetOracle) (name : String) :
    List Nat → List (Option Nat × String) → Nat →
      List (Option Nat × String) × Nat
  | [], m, ctr => (m, ctr)
  | p :: rest, m, ctr =>
    let r := listenStep o p ctr
    setupPorts o name rest (mapInsert m r.1 name) r.2

/-- The per-application loop of `NewServer` from pkg/server. -/
def setupApps (o : NetOracle) :
    List App → List (Option Nat × String) → Nat →
      List (Option Nat × String) × Nat
  | [], m, ctr => (m, ctr)
  | a :: rest, m, ctr =>
    let r := setupPorts o a.name a.ports m ctr
    setupApps o rest r.1 r.2

/-- The listener map built by `NewServer` from pkg/server: keyed by
the `*net.TCPListener` pointer (`none` is the nil pointer shared by
every failed listen, `some i` the `i`-th successfully allocated
listener), valued by the owning application name. -/
def setupListeners (o : NetOracle) (apps : List App) :
    List (Option Nat × String) :=
  (setupApps o apps [] 0).1

/-- Whether `net.ListenTCP` succeeds for a configured port; the
address argument depends only on the port and its resolve outcome. -/
def listenSucceeds (o : NetOracle) (p : Nat) : Bool :=
  o.listenOk (if o.resolveOk p then some p else none)

/-- Whether the listener map holds the nil-pointer key. -/
def hasNil (m : List (Option Nat × String)) : Bool :=
  m.any (fun e => e.1 = none)

/-- Number of configured ports, over all applications in order, whose
listen succeeds. -/
def countListenOk (o : NetOracle) (apps : List App) : Nat :=
  ((apps.flatMap App.ports).filter (listenSucceeds o)).length

/-- Whether some configured port's listen fails. -/
def anyListenFail (o : NetOracle) (apps : List App) : Bool :=
  (apps.flatMap App.ports).any (fun p => !listenSucceeds o p)

/-- The pool map built by `NewServer` from pkg/server: one
`NewServerPool` per application, from its targets. -/
def setupPools (apps : List App) : List (String × ServerPool) :=
  apps.map (fun a => (a.name, NewServerPool a.targets))

/-- `Server` from pkg/server, restricted to its pure state: the quit
channel, the listener map and the pool map. -/
structure Server where
  quit : SigChannel
  listener : List (Option Nat × String)
  serverPool : List (String × ServerPool)

/-- `NewServer` from pkg/server: build the listener and pool maps over
all applications and ports. -/
def NewServer (o : NetOracle) (apps : List App) : Server :=
  { quit := NewSigChannel
  , listener := setupListeners o apps
  , serverPool := setupPools apps }

/-- How a `Stop` call ends: normal return or `log.Fatal` process exit. -/
inductive StopOutcome where
  | graceful
  | fatalExit
deriving Repr, DecidableEq

/-- The close loop of `Stop` from pkg/server, over the per-listener
results of `(*ln).Close()` in Go's map iteration order (`true` means
closed without error): on the first close error `log.Fatal` terminates
the process.  Returns the outcome and the number of listeners whose
`Close` was attempted. -/
def stopClose : List Bool → StopOutcome × Nat
  | [] => (.graceful, 0)
  | ok :: rest =>
    if ok then
      let r := stopClose rest
      (r.1, r.2 + 1)
    else (.fatalExit, 1)

/-- `Stop` from pkg/server: `SafeClose` the quit channel, then close
every listener, `log.Fatal`-ing on the first close error. -/
def Stop (quit : SigChannel) (closeResults : List Bool) :
    Option (SigChannel × StopOutcome × Nat) :=
  match SafeClose quit with
  | none => none
  | some q => some (q, stopClose closeResults)

/-- Modelled effect of `DialTCP` from pkg/server: the address is first
resolved by `net.ResolveTCPAddr`, which always fails on the empty
address (missing host and port), so the dial fails before any socket
is created; for other addresses the outcome of resolution, socket
creation and connect is summarised by the oracle. -/
def DialTCP (connectOk : String → Bool) (addr : String) : Bool :=
  if addr = "" then false else connectOk addr

/-- What `proxyConnection` from pkg/server did with one accepted
connection. -/
structure ProxyTrace where
  dialedAddr : Option String
  dialSucceeded : Bool
  relayed : Bool
  connClosed : Bool
deriving Repr, DecidableEq

/-- Go map lookup `s.serverPool[appName]`: `none` models the `nil`
zero value returned for a missing key. -/
def lookupPool (pools : List (String × ServerPool)) (name : String) :
    Option ServerPool :=
  match pools.find? (fun e => e.1 = name) with
  | some e => some e.2
  | none => none

/-- `proxyConnection` from pkg/server: look up the pool (a missing
application gives a nil pool, and calling `GetNextPeer` on it panics),
pick the next peer (panics on an empty pool), leave `remoteAddr` as
the empty string when no peer is returned, always close the inbound
connection (deferred `conn.Close()`), and always call `DialTCP` with
`remoteAddr`; on dial error log and return without relaying, otherwise
relay both directions and close both connections. -/
def proxyConnection (connectOk : String → Bool) (srv : Server)
    (appName : String) : Option (ProxyTrace × ServerPool) :=
  match lookupPool srv.serverPool appName with
  | none => none
  | some pool =>
    match GetNextPeer pool with
    | none => none
    | some (nextTarget, pool1) =>
      let remoteAddr :=
        match nextTarget with
        | some b => GetAddress b
        | none => ""
      if DialTCP connectOk remoteAddr then
        some ({ dialedAddr := some remoteAddr, dialSucceeded := true,
                relayed := true, connClosed := true }, pool1)
      else
        some ({ dialedAddr := some remoteAddr, dialSucceeded := false,
                relayed := false, connClosed := true }, pool1)

/-- State of `handleConnection` from pkg/server: iteration count of
its unconditional `for` loop and the `proxyConnection` relays spawned
so far, as (connection id, application name) pairs. -/
structure HandleState where
  iterations : Nat
  relays : List (Nat × String)
deriving Repr, DecidableEq

/-- One pass of the loop body of `handleConnection` from pkg/server:
`listenerGroup.Add(1); go proxyConnection(conn, appName);
listenerGroup.Wait()`.  The body contains no return or break. -/
def handleConnectionStep (conn : Nat) (appName : String)
    (st : HandleState) : HandleState :=
  { iterations := st.iterations + 1, relays := st.relays ++ [(conn, appName)] }

/-- `n` iterations of the `handleConnection` loop from its start. -/
def handleConnectionRun (conn : Nat) (appName : String) : Nat → HandleState
  | 0 => { iterations := 0, relays := [] }
  | n + 1 => handleConnectionStep conn appName (handleConnectionRun conn appName n)

/-- Timeout of `isBackendAlive` from lb.go:
`timeout := 2 * time.Second`. -/
def probeTimeoutSeconds : Nat := 2

/-- Tick interval of `HealthCheck` from lb.go:
`time.NewTicker(time.Second * 20)`. -/
def healthCheckIntervalSeconds : Nat := 20

/-- `isBackendAlive` from lb.go: probe via
`net.DialTimeout("tcp", addr, timeout)`; the network outcome for a
given address and timeout is the oracle `dial`. -/
def isBackendAlive (dial : String → Nat → Bool) (addr : String) : Bool :=
  dial addr probeTimeoutSeconds

/-- `healthCheckItr` from lb.go: probe every backend in order and set
its alive flag to its own probe result. -/
def healthCheckItr (dial : String → Nat → Bool)
    (backends : List Backend) : List Backend :=
  backends.map (fun b => SetAlive b (isBackendAlive dial b.target))

/-- The ticking loop of `HealthCheck` from lb.go: one `healthCheckItr`
per tick, forever; `dial n` is the network state at tick `n`. -/
def healthCheckTicks (dial : Nat → String → Nat → Bool)
    (backends : List Backend) : Nat → List Backend
  | 0 => backends
  | n + 1 => healthCheckItr (dial n) (healthCheckTicks dial backends n)

/-- Sample oracle: every resolve succeeds, every listen fails. -/
def oracleListenFails : NetOracle :=
  { resolveOk := fun _ => true, listenOk := fun _ => false }

/-- Sample configuration: one application with a single port. -/
def appsOnePort : List App :=
  [{ name := "a", ports := [5001], targets := ["t"] }]

/-- Sample configuration: one application with two ports. -/
def appsTwoPorts : List App :=
  [{ name := "a", ports := [5001, 5002], targets := ["t"] }]

/-- Sample server whose only application has a single dead backend. -/
def srvDeadBackend : Server :=
  { quit := NewSigChannel
  , listener := []
  , serverPool := [("a", { backends := [⟨"t", false⟩], current := 0 })] }

/-- A successful scan returns the loop counter of the first alive
backend in the window `[i, i + fuel)`. -/
theorem scanFrom_eq_some {backends : List Backend} {fuel : Nat} {i j : Nat}
    (h : scanFrom backends i fuel = some j) :
    i ≤ j ∧ j < i + fuel ∧
      IsAlive (backends.getD (j % backends.length) (NewBackend "")) = true ∧
      ∀ m, i ≤ m → m < j →
        IsAlive (backends.getD (m % backends.length) (NewBackend "")) = false := by
  induction fuel generalizing i with
  | zero => simp [scanFrom] at h
  | succ fuel ih =>
    rw [scanFrom] at h
    by_cases hb : IsAlive (backends.getD (i % backends.length) (NewBackend "")) = true
    · rw [if_pos hb] at h
      obtain rfl := Option.some.inj h
      exact ⟨Nat.le_refl _, by omega, hb, fun m h1 h2 => absurd (Nat.lt_of_le_of_lt h1 h2) (Nat.lt_irrefl _)⟩
    · have hb' : IsAlive (backends.getD (i % backends.length) (NewBackend "")) = false :=
        Bool.eq_false_iff.mpr hb
      rw [if_neg hb] at h
      obtain ⟨h1, h2, h3, h4⟩ := ih h
      refine ⟨by omega, by omega, h3, ?_⟩
      intro m hm1 hm2
      rcases Nat.eq_or_lt_of_le hm1 with rfl | hlt
      · exact hb'
      · exact h4 m hlt hm2

/-- A failed scan means every backend in the window `[i, i + fuel)`
is dead. -/
theorem scanFrom_eq_none {backends : List Backend} {fuel : Nat} {i : Nat}
    (h : scanFrom backends i fuel = none) :
    ∀ m, i ≤ m → m < i + fuel →
      IsAlive (backends.getD (m % backends.length) (NewBackend "")) = false := by
  induction fuel generalizing i with
  | zero => intro m h1 h2; omega
  | succ fuel ih =>
    rw [scanFrom] at h
    by_cases hb : IsAlive (backends.getD (i % backends.length) (NewBackend "")) = true
    · rw [if_pos hb] at h
      exact absurd h (Option.some_ne_none i)
    · have hb' : IsAlive (backends.getD (i % backends.length) (NewBackend "")) = false :=
        Bool.eq_false_iff.mpr hb
      rw [if_neg hb] at h
      intro m hm1 hm2
      rcases Nat.eq_or_lt_of_le hm1 with rfl | hlt
      · exact hb'
      · exact ih h m hlt (by omega)

/-- When every backend is dead the scan fails for any window. -/
theorem scanFrom_all_dead {backends : List Backend}
    (hlen : 0 < backends.length)
    (hdead : ∀ b ∈ backends, b.alive = false) :
    ∀ fuel i, scanFrom backends i fuel = none := by
  intro fuel
  induction fuel with
  | zero => intro i; rfl
  | succ fuel ih =>
    intro i
    rw [scanFrom]
    have hlt : i % backends.length < backends.length := Nat.mod_lt _ hlen
    have hmem : backends.getD (i % backends.length) (NewBackend "") ∈ backends := by
      rw [List.getD_eq_getElem _ _ hlt]
      exact List.getElem_mem hlt
    have hfalse : IsAlive (backends.getD (i % backends.length) (NewBackend "")) = false :=
      hdead _ hmem
    rw [if_neg (by simp only [hfalse]; exact Bool.false_ne_true)]
    exact ih (i + 1)

/-- A scan whose starting position holds an alive backend returns at
once with the starting counter. -/
theorem scanFrom_start {backends : List Backend} {i fuel : Nat} (hf : 0 < fuel)
    (hb : IsAlive (backends.getD (i % backends.length) (NewBackend "")) = true) :
    scanFrom backends i fuel = some i := by
  obtain ⟨f, rfl⟩ : ∃ f, fuel = f + 1 := ⟨fuel - 1, by omega⟩
  rw [scanFrom, if_pos hb]

/-- Unfolding of `GetNextPeer` for a nonempty pool. -/
theorem getNextPeer_eq {s : ServerPool} (hn : 0 < s.backends.length) :
    GetNextPeer s =
      match scanFrom s.backends (((s.current + 1) % U64) % s.backends.length)
          s.backends.length with
      | none => some (none, { s with current := (s.current + 1) % U64 })
      | some i =>
        if i = ((s.current + 1) % U64) % s.backends.length then
          some (some (s.backends.getD (i % s.backends.length) (NewBackend "")),
            { s with current := (s.current + 1) % U64 })
        else
          some (some (s.backends.getD (i % s.backends.length) (NewBackend "")),
            { s with current := i % s.backends.length }) := by
  have h0 : s.backends.length ≠ 0 := Nat.pos_iff_ne_zero.mp hn
  simp only [GetNextPeer, NextIndex, h0, if_false]

/-- Unfolding of `GetNextPeer` when the scan fails. -/
theorem getNextPeer_scan_none {s : ServerPool} (hn : 0 < s.backends.length)
    (hsc : scanFrom s.backends (((s.current + 1) % U64) % s.backends.length)
      s.backends.length = none) :
    GetNextPeer s = some (none, { s with current := (s.current + 1) % U64 }) := by
  have h0 : s.backends.length ≠ 0 := Nat.pos_iff_ne_zero.mp hn
  simp [GetNextPeer, NextIndex, h0, hsc]

/-- Unfolding of `GetNextPeer` when the scan finds loop counter `i`. -/
theorem getNextPeer_scan_some {s : ServerPool} {i : Nat} (hn : 0 < s.backends.length)
    (hsc : scanFrom s.backends (((s.current + 1) % U64) % s.backends.length)
      s.backends.length = some i) :
    GetNextPeer s =
      if i = ((s.current + 1) % U64) % s.backends.length then
        some (some (s.backends.getD (i % s.backends.length) (NewBackend "")),
          { s with current := (s.current + 1) % U64 })
      else
        some (some (s.backends.getD (i % s.backends.length) (NewBackend "")),
          { s with current := i % s.backends.length }) := by
  have h0 : s.backends.length ≠ 0 := Nat.pos_iff_ne_zero.mp hn
  simp [GetNextPeer, NextIndex, h0, hsc]

/-- When every backend is alive, one `GetNextPeer` call returns the
backend right after the cursor and leaves the cursor at the incremented
value. -/
theorem getNextPeer_all_alive {s : ServerPool}
    (hn : 0 < s.backends.length)
    (halive : ∀ b ∈ s.backends, b.alive = true) :
    GetNextPeer s =
      some (some (s.backends.getD (((s.current + 1) % U64) % s.backends.length)
          (NewBackend "")),
        { s with current := (s.current + 1) % U64 }) := by
  have hnext : ((s.current + 1) % U64) % s.backends.length < s.backends.length :=
    Nat.mod_lt _ hn
  have hmem : s.backends.getD (((s.current + 1) % U64) % s.backends.length)
      (NewBackend "") ∈ s.backends := by
    rw [List.getD_eq_getElem _ _ hnext]
    exact List.getElem_mem hnext
  have hb : IsAlive (s.backends.getD
      ((((s.current + 1) % U64) % s.backends.length) % s.backends.length)
      (NewBackend "")) = true := by
    rw [Nat.mod_eq_of_lt hnext]
    exact halive _ hmem
  have hsc := scanFrom_start hn hb
  have heq := getNextPeer_scan_some hn hsc
  rw [heq, if_pos rfl, Nat.mod_eq_of_lt hnext]

/-- When every backend is alive and the `uint64` counter does not wrap,
`m` consecutive calls return the backends in configured cyclic order
starting right after the cursor, adding `m` to the cursor. -/
theorem getPeers_all_alive {s : ServerPool} (m : Nat)
    (hn : 0 < s.backends.length)
    (halive : ∀ b ∈ s.backends, b.alive = true)
    (hwrap : s.current + m < U64) :
    getPeers s m =
      some ((List.range m).map (fun k =>
          some (s.backends.getD ((s.current + 1 + k) % s.backends.length)
            (NewBackend ""))),
        { s with current := s.current + m }) := by
  induction m generalizing s with
  | zero =>
    simp [getPeers]
  | succ m ih =>
    have hstep := getNextPeer_all_alive hn halive
    have hc1 : (s.current + 1) % U64 = s.current + 1 := Nat.mod_eq_of_lt (by omega)
    rw [hc1] at hstep
    have ih' := ih (s := { s with current := s.current + 1 }) hn halive (by simp; omega)
    simp only [getPeers, hstep, ih']
    refine congrArg some (Prod.mk.injEq _ _ _ _ ▸ ⟨?_, ?_⟩)
    · rw [List.range_succ_eq_map, List.map_cons, List.map_map]
      refine congrArg₂ List.cons (by simp) ?_
      refine List.map_congr_left ?_
      intro k _
      simp only [Function.comp_apply]
      have harith : s.current + 1 + 1 + k = s.current + 1 + (k + 1) := by omega
      rw [harith]
    · have harith : s.current + 1 + m = s.current + (m + 1) := by omega
      simp only [harith]

/-- Claim C2: `GetNextPeer` advances the cursor to obtain `next`, scans
`next, next+1, …, next+size-1` (each modulo size) and returns the first
alive backend; a dead backend is never returned, and when no backend is
alive every call returns `nil` (with the cursor left at the incremented
value). -/
theorem claim_C2_selection_first_alive (s : ServerPool)
    (hn : 0 < s.backends.length) :
    (∀ b s2, GetNextPeer s = some (some b, s2) → b.alive = true) ∧
    (∀ b s2, GetNextPeer s = some (some b, s2) →
      ∃ k, k < s.backends.length ∧
        b = s.backends.getD
            ((((s.current + 1) % U64) % s.backends.length + k) % s.backends.length)
            (NewBackend "") ∧
        ∀ m, m < k →
          (s.backends.getD
              ((((s.current + 1) % U64) % s.backends.length + m) % s.backends.length)
              (NewBackend "")).alive = false) ∧
    ((∀ b ∈ s.backends, b.alive = false) →
      GetNextPeer s = some (none, { s with current := (s.current + 1) % U64 })) := by
  cases hsc : scanFrom s.backends (((s.current + 1) % U64) % s.backends.length)
      s.backends.length with
  | none =>
    have heq := getNextPeer_scan_none hn hsc
    refine ⟨?_, ?_, fun _ => heq⟩
    · intro b s2 h
      rw [heq] at h
      simp at h
    · intro b s2 h
      rw [heq] at h
      simp at h
  | some i =>
    have heq := getNextPeer_scan_some hn hsc
    obtain ⟨h1, h2, h3, h4⟩ := scanFrom_eq_some hsc
    have hbval : ∀ b s2, GetNextPeer s = some (some b, s2) →
        b = s.backends.getD (i % s.backends.length) (NewBackend "") := by
      intro b s2 h
      rw [heq] at h
      by_cases hi : i = ((s.current + 1) % U64) % s.backends.length
      · rw [if_pos hi] at h
        simp only [Option.some.injEq, Prod.mk.injEq] at h
        exact h.1.symm
      · rw [if_neg hi] at h
        simp only [Option.some.injEq, Prod.mk.injEq] at h
        exact h.1.symm
    refine ⟨?_, ?_, ?_⟩
    · intro b s2 h
      rw [hbval b s2 h]
      exact h3
    · intro b s2 h
      refine ⟨i - (((s.current + 1) % U64) % s.backends.length), by omega, ?_, ?_⟩
      · rw [hbval b s2 h]
        have hni : (((s.current + 1) % U64) % s.backends.length) +
            (i - (((s.current + 1) % U64) % s.backends.length)) = i := by omega
        rw [hni]
      · intro m hm
        exact h4 ((((s.current + 1) % U64) % s.backends.length) + m) (by omega) (by omega)
    · intro hdead
      have hall := scanFrom_all_dead hn hdead s.backends.length
        (((s.current + 1) % U64) % s.backends.length)
      rw [hall] at hsc
      cases hsc

/-- Concrete instantiation of `claim_C2_selection_first_alive` on a
two-backend pool whose first backend is dead. -/
theorem claim_C2_witness :
    (∀ b s2, GetNextPeer poolMixed2 = some (some b, s2) → b.alive = true) ∧
    (∀ b s2, GetNextPeer poolMixed2 = some (some b, s2) →
      ∃ k, k < poolMixed2.backends.length ∧
        b = poolMixed2.backends.getD
            ((((poolMixed2.current + 1) % U64) % poolMixed2.backends.length + k) %
              poolMixed2.backends.length) (NewBackend "") ∧
        ∀ m, m < k →
          (poolMixed2.backends.getD
              ((((poolMixed2.current + 1) % U64) % poolMixed2.backends.length + m) %
                poolMixed2.backends.length) (NewBackend "")).alive = false) ∧
    ((∀ b ∈ poolMixed2.backends, b.alive = false) →
      GetNextPeer poolMixed2 =
        some (none, { poolMixed2 with current := (poolMixed2.current + 1) % U64 })) :=
  claim_C2_selection_first_alive poolMixed2 (by decide)

/-- Claim C1: for a pool of `n` all-alive backends, `n` consecutive
`GetNextPeer` calls return each backend position exactly once, in
configured order starting from the position after the current cursor,
and the `(n+1)`-th call restarts the same cycle (stated for runs in
which the `uint64` counter does not wrap). -/
theorem claim_C1_round_robin_cycle (s : ServerPool) (n : Nat)
    (hlen : s.backends.length = n) (hn : 0 < n)
    (halive : ∀ b ∈ s.backends, b.alive = true)
    (hwrap : s.current + n + 1 < U64) :
    ∃ rs s2, getPeers s (n + 1) = some (rs, s2) ∧
      rs.length = n + 1 ∧
      (∀ k, k < n + 1 → rs.getD k none =
        some (s.backends.getD ((s.current + 1 + k) % n) (NewBackend ""))) ∧
      rs.getD n none = rs.getD 0 none ∧
      (∀ k1 k2, k1 < n → k2 < n →
        (s.current + 1 + k1) % n = (s.current + 1 + k2) % n → k1 = k2) ∧
      (∀ j, j < n → ∃ k, k < n ∧ (s.current + 1 + k) % n = j) := by
  subst hlen
  have hall := getPeers_all_alive (s := s) (s.backends.length + 1) (by omega) halive (by omega)
  refine ⟨_, _, hall, ?_, ?_, ?_, ?_, ?_⟩
  · simp
  · intro k hk
    rw [List.getD_eq_getElem?_getD, List.getElem?_map, List.getElem?_range hk]
    rfl
  · have hg : ∀ k, k < s.backends.length + 1 →
        ((List.range (s.backends.length + 1)).map (fun k =>
          some (s.backends.getD ((s.current + 1 + k) % s.backends.length)
            (NewBackend "")))).getD k none =
          some (s.backends.getD ((s.current + 1 + k) % s.backends.length)
            (NewBackend "")) := by
      intro k hk
      rw [List.getD_eq_getElem?_getD, List.getElem?_map, List.getElem?_range hk]
      rfl
    rw [hg s.backends.length (by omega), hg 0 (by omega)]
    have harith : (s.current + 1 + s.backends.length) % s.backends.length =
        (s.current + 1 + 0) % s.backends.length := by
      rw [Nat.add_zero, Nat.add_mod_right]
    rw [harith]
  · intro k1 k2 hk1 hk2 h
    have h' : Nat.ModEq s.backends.length (s.current + 1 + k1) (s.current + 1 + k2) := h
    have hk := Nat.ModEq.add_left_cancel' (s.current + 1) h'
    have : k1 % s.backends.length = k2 % s.backends.length := hk
    rwa [Nat.mod_eq_of_lt hk1, Nat.mod_eq_of_lt hk2] at this
  · intro j hj
    refine ⟨(s.backends.length + j - (s.current + 1) % s.backends.length) %
      s.backends.length, Nat.mod_lt _ (by omega), ?_⟩
    rw [Nat.add_mod_mod]
    have hq : s.backends.length * ((s.current + 1) / s.backends.length) +
        (s.current + 1) % s.backends.length = s.current + 1 :=
      Nat.div_add_mod _ _
    have hr : (s.current + 1) % s.backends.length < s.backends.length :=
      Nat.mod_lt _ (by omega)
    set t := s.backends.length * ((s.current + 1) / s.backends.length) with hT
    have harith : s.current + 1 +
        (s.backends.length + j - (s.current + 1) % s.backends.length) =
        t + (s.backends.length + j) := by omega
    rw [harith, hT, Nat.mul_add_mod, Nat.add_mod_left]
    exact Nat.mod_eq_of_lt hj

/-- Concrete instantiation of `claim_C1_round_robin_cycle` on a pool of
three alive backends with cursor one. -/
theorem claim_C1_witness :
    ∃ rs s2, getPeers poolAllAlive3 (3 + 1) = some (rs, s2) ∧
      rs.length = 3 + 1 ∧
      (∀ k, k < 3 + 1 → rs.getD k none =
        some (poolAllAlive3.backends.getD ((poolAllAlive3.current + 1 + k) % 3)
          (NewBackend ""))) ∧
      rs.getD 3 none = rs.getD 0 none ∧
      (∀ k1 k2, k1 < 3 → k2 < 3 →
        (poolAllAlive3.current + 1 + k1) % 3 = (poolAllAlive3.current + 1 + k2) % 3 →
          k1 = k2) ∧
      (∀ j, j < 3 → ∃ k, k < 3 ∧ (poolAllAlive3.current + 1 + k) % 3 = j) :=
  claim_C1_round_robin_cycle poolAllAlive3 3 (by decide) (by decide)
    (by decide) (by decide)

/-- Counterexample to claim C7: on a two-backend pool with cursor 2
whose second backend is dead, `GetNextPeer` skips the dead backend and
stores the found index 0 into the cursor, moving the cursor backwards
from 2 to 0. -/
theorem claim_C7_counterexample :
    GetNextPeer poolSkipBack =
      some (some (Backend.mk "t0" true),
        ServerPool.mk [⟨"t0", true⟩, ⟨"t1", false⟩] 0) ∧
    0 < poolSkipBack.current := by
  exact ⟨rfl, by decide⟩

/-- Claim C7 amended: every `GetNextPeer` call (and `NextIndex`, and
`NewServerPool`) leaves the backends sequence unchanged and equal to
the configured target order, and the cursor's position modulo pool size
only moves forward within the scanned cycle: it becomes the incremented
index plus the number of dead backends skipped, modulo size (the index
of the returned backend when one is returned).  The raw `uint64` cursor
value, however, is not monotone: storing the found index can decrease
it. -/
theorem claim_C7_amended (s s2 : ServerPool) (r : Option Backend)
    (h : GetNextPeer s = some (r, s2)) :
    s2.backends = s.backends ∧
    (∀ targets, (NewServerPool targets).backends.map GetAddress = targets) ∧
    (∀ nx s1, NextIndex s = some (nx, s1) → s1.backends = s.backends) ∧
    ∃ k, k < s.backends.length ∧
      s2.current % s.backends.length =
        (((s.current + 1) % U64) + k) % s.backends.length ∧
      (r = none ∨ r = some (s.backends.getD ((((s.current + 1) % U64) + k) %
        s.backends.length) (NewBackend ""))) := by
  have hn : 0 < s.backends.length := by
    rcases Nat.eq_zero_or_pos s.backends.length with h0 | h0
    · exfalso
      simp [GetNextPeer, NextIndex, h0] at h
    · exact h0
  have hpool : ∀ targets, (NewServerPool targets).backends.map GetAddress = targets := by
    intro targets
    simp [NewServerPool, GetAddress, NewBackend, List.map_map, Function.comp_def]
  have hni : ∀ nx s1, NextIndex s = some (nx, s1) → s1.backends = s.backends := by
    intro nx s1 hx
    simp only [NextIndex, Nat.pos_iff_ne_zero.mp hn, if_false, Option.some.injEq,
      Prod.mk.injEq] at hx
    rw [← hx.2]
  cases hsc : scanFrom s.backends (((s.current + 1) % U64) % s.backends.length)
      s.backends.length with
  | none =>
    rw [getNextPeer_scan_none hn hsc] at h
    simp only [Option.some.injEq, Prod.mk.injEq] at h
    obtain ⟨rfl, rfl⟩ := h
    refine ⟨rfl, hpool, hni, 0, hn, ?_, Or.inl rfl⟩
    simp
  | some i =>
    rw [getNextPeer_scan_some hn hsc] at h
    obtain ⟨h1, h2, -, -⟩ := scanFrom_eq_some hsc
    by_cases hi : i = ((s.current + 1) % U64) % s.backends.length
    · rw [if_pos hi] at h
      simp only [Option.some.injEq, Prod.mk.injEq] at h
      obtain ⟨rfl, rfl⟩ := h
      refine ⟨rfl, hpool, hni, 0, hn, by simp, Or.inr ?_⟩
      have hmm : i % s.backends.length = (s.current + 1) % U64 % s.backends.length := by
        rw [hi]
        exact Nat.mod_mod_of_dvd _ (dvd_refl _)
      simp [hmm]
    · rw [if_neg hi] at h
      simp only [Option.some.injEq, Prod.mk.injEq] at h
      obtain ⟨rfl, rfl⟩ := h
      have hidx : ((s.current + 1) % U64 +
          (i - ((s.current + 1) % U64) % s.backends.length)) % s.backends.length =
          i % s.backends.length := by
        have h6 := Nat.ModEq.add_right
          (i - ((s.current + 1) % U64) % s.backends.length)
          (Nat.mod_modEq ((s.current + 1) % U64) s.backends.length).symm
        have h7 : ((s.current + 1) % U64) % s.backends.length +
            (i - ((s.current + 1) % U64) % s.backends.length) = i := by omega
        rw [h7] at h6
        exact h6
      refine ⟨rfl, hpool, hni,
        i - ((s.current + 1) % U64) % s.backends.length, by omega, ?_, Or.inr ?_⟩
      · rw [hidx]
        exact Nat.mod_mod_of_dvd _ dvd_rfl
      · rw [hidx]

/-- Concrete instantiation of `claim_C7_amended` on a two-backend pool
whose first backend is dead. -/
theorem claim_C7_witness :
    poolMixed2.backends = poolMixed2.backends ∧
    (∀ targets, (NewServerPool targets).backends.map GetAddress = targets) ∧
    (∀ nx s1, NextIndex poolMixed2 = some (nx, s1) → s1.backends = poolMixed2.backends) ∧
    ∃ k, k < poolMixed2.backends.length ∧
      (ServerPool.mk [⟨"a", false⟩, ⟨"b", true⟩] 1).current % poolMixed2.backends.length =
        (((poolMixed2.current + 1) % U64) + k) % poolMixed2.backends.length ∧
      ((some (Backend.mk "b" true) : Option Backend) = none ∨
        some (Backend.mk "b" true) =
          some (poolMixed2.backends.getD ((((poolMixed2.current + 1) % U64) + k) %
            poolMixed2.backends.length) (NewBackend ""))) :=
  claim_C7_amended poolMixed2 (ServerPool.mk [⟨"a", false⟩, ⟨"b", true⟩] 1)
    (some (Backend.mk "b" true)) rfl

/-- Claim C10: an application configured with an empty `Targets` list
yields a pool with zero backends, and then `NextIndex` (hence
`GetNextPeer`) performs a modulo by zero, which panics in Go; for a
pool with at least one backend, `NextIndex` always succeeds. -/
theorem claim_C10_empty_pool_panics :
    (NewServerPool []).backends = [] ∧
    NextIndex (NewServerPool []) = none ∧
    GetNextPeer (NewServerPool []) = none ∧
    ∀ s : ServerPool, 0 < s.backends.length → (NextIndex s).isSome = true := by
  refine ⟨rfl, rfl, rfl, ?_⟩
  intro s hs
  simp [NextIndex, Nat.pos_iff_ne_zero.mp hs]

/-- Concrete instantiation of `claim_C10_empty_pool_panics`. -/
theorem claim_C10_witness :
    (NewServerPool []).backends = [] ∧
    NextIndex (NewServerPool []) = none ∧
    GetNextPeer (NewServerPool []) = none ∧
    (NextIndex { backends := [NewBackend "a"], current := 0 }).isSome = true := by
  obtain ⟨h1, h2, h3, h4⟩ := claim_C10_empty_pool_panics
  exact ⟨h1, h2, h3, h4 { backends := [NewBackend "a"], current := 0 } (by decide)⟩

/-- Further `SafeClose` calls on an already-closed signal are no-ops. -/
theorem safeCloseIter_closed (n : Nat) :
    safeCloseIter n { closed := true, onceDone := true } =
      some { closed := true, onceDone := true } := by
  induction n with
  | zero => rfl
  | succ n ih => simpa [safeCloseIter, SafeClose] using ih

/-- Claim C6: closing the shutdown signal any number of times via
`SafeClose` never fails or panics; the signal transitions from open to
closed exactly once — after the first call it is closed and every
further call leaves it unchanged. -/
theorem claim_C6_safeclose_exactly_once (n : Nat) :
    safeCloseIter n NewSigChannel =
      some (if n = 0 then NewSigChannel
            else { closed := true, onceDone := true }) := by
  cases n with
  | zero => rfl
  | succ n =>
    have hstep : SafeClose NewSigChannel = some { closed := true, onceDone := true } := rfl
    simp [safeCloseIter, hstep, safeCloseIter_closed n]

/-- Claim C9: `handleConnection` re-spawns and re-waits on the relay
for the same connection in an unconditional loop: after `n` iterations
it has spawned `n` `proxyConnection` relays, all carrying the same
connection, and every iteration is followed by another one — the loop
body has no exit, so `handleConnection` never returns after a finished
relay. -/
theorem claim_C9_repeat_relay (conn : Nat) (appName : String) (n : Nat) :
    handleConnectionRun conn appName n =
      { iterations := n, relays := List.replicate n (conn, appName) } ∧
    (handleConnectionRun conn appName (n + 1)).iterations =
      (handleConnectionRun conn appName n).iterations + 1 := by
  constructor
  · induction n with
    | zero => rfl
    | succ n ih =>
      simp [handleConnectionRun, handleConnectionStep, ih, List.replicate_succ']
  · rfl

/-- Claim C8: the health checker ticks every 20 seconds; on each tick
it probes every backend of the application in order with the 2-second
connect timeout and sets each backend's alive flag to its own probe
result (true on success, false on any error); one backend's probe
outcome never affects the processing of the others, and the ticking
recursion is total — the checker performs every tick and never
terminates itself. -/
theorem claim_C8_health_check (dial : String → Nat → Bool)
    (backends : List Backend) (k : Nat) (hk : k < backends.length) :
    healthCheckIntervalSeconds = 20 ∧
    probeTimeoutSeconds = 2 ∧
    (healthCheckItr dial backends).length = backends.length ∧
    (healthCheckItr dial backends).getD k (NewBackend "") =
      SetAlive (backends.getD k (NewBackend ""))
        (dial (backends.getD k (NewBackend "")).target probeTimeoutSeconds) ∧
    ∀ dialT n, (healthCheckTicks dialT backends n).length = backends.length := by
  refine ⟨rfl, rfl, by simp [healthCheckItr], ?_, ?_⟩
  · have hk2 : k < (healthCheckItr dial backends).length := by
      simpa [healthCheckItr] using hk
    rw [List.getD_eq_getElem _ _ hk2, List.getD_eq_getElem _ _ hk]
    simp [healthCheckItr, isBackendAlive]
  · intro dialT n
    induction n with
    | zero => rfl
    | succ n ih => simp [healthCheckTicks, healthCheckItr, ih]

/-- Concrete instantiation of `claim_C8_health_check` on a two-backend
list with an all-failing network, at index 1. -/
theorem claim_C8_witness :
    healthCheckIntervalSeconds = 20 ∧
    probeTimeoutSeconds = 2 ∧
    (healthCheckItr (fun _ _ => false) [NewBackend "u", NewBackend "v"]).length =
      [NewBackend "u", NewBackend "v"].length ∧
    (healthCheckItr (fun _ _ => false) [NewBackend "u", NewBackend "v"]).getD 1
        (NewBackend "") =
      SetAlive ([NewBackend "u", NewBackend "v"].getD 1 (NewBackend ""))
        false ∧
    ∀ dialT n,
      (healthCheckTicks dialT [NewBackend "u", NewBackend "v"] n).length =
        [NewBackend "u", NewBackend "v"].length :=
  claim_C8_health_check (fun _ _ => false) [NewBackend "u", NewBackend "v"] 1
    (by decide)

/-- If every close succeeds, the close loop attempts every listener
and is graceful. -/
theorem stopClose_all_ok (results : List Bool)
    (h : ∀ r ∈ results, r = true) :
    stopClose results = (StopOutcome.graceful, results.length) := by
  induction results with
  | nil => rfl
  | cons a rest ih =>
    have ha : a = true := h a (List.mem_cons_self a rest)
    subst ha
    simp [stopClose, ih (fun r hr => h r (List.mem_cons_of_mem _ hr))]

/-- The first close error stops the loop: with `good.length` clean
closes before it, only `good.length + 1` closes are attempted and the
process exits fatally. -/
theorem stopClose_first_fail (good rest : List Bool)
    (h : ∀ r ∈ good, r = true) :
    stopClose (good ++ false :: rest) =
      (StopOutcome.fatalExit, good.length + 1) := by
  induction good with
  | nil => rfl
  | cons a g ih =>
    have ha : a = true := h a (List.mem_cons_self a g)
    subst ha
    simp [stopClose, ih (fun r hr => h r (List.mem_cons_of_mem _ hr))]

/-- Counterexample to claim C3: with two listeners whose first close
errors, `Stop` exits the process fatally (`log.Fatal`) after
attempting only the first close; the remaining listener is never
closed, so the close error is fatal and does abort the drain. -/
theorem claim_C3_counterexample :
    Stop NewSigChannel [false, true] =
      some ({ closed := true, onceDone := true }, StopOutcome.fatalExit, 1) ∧
    1 < [false, true].length := by
  exact ⟨rfl, by decide⟩

/-- Claim C3 amended: `Stop` closes the shutdown signal exactly once
and never panics, then closes the listeners in iteration order; when
every close succeeds all closes are attempted and `Stop` returns
gracefully, but on the first close error `log.Fatal` exits the process
and the remaining listeners are not attempted. -/
theorem claim_C3_amended (quit : SigChannel)
    (results good rest : List Bool)
    (hwf : quit.closed = true → quit.onceDone = true)
    (hok : ∀ r ∈ results, r = true)
    (hgood : ∀ r ∈ good, r = true) :
    ∃ q, SafeClose quit = some q ∧
      Stop quit results = some (q, StopOutcome.graceful, results.length) ∧
      Stop quit (good ++ false :: rest) =
        some (q, StopOutcome.fatalExit, good.length + 1) := by
  obtain ⟨q, hq⟩ : ∃ q, SafeClose quit = some q := by
    by_cases h1 : quit.onceDone = true
    · exact ⟨quit, by simp [SafeClose, h1]⟩
    · have h2 : quit.closed = false := by
        rcases Bool.eq_false_or_eq_true quit.closed with h | h
        · exact absurd (hwf h) h1
        · exact h
      refine ⟨{ closed := true, onceDone := true }, ?_⟩
      simp [SafeClose, closeChan, h2, Bool.eq_false_iff.mpr h1]
  refine ⟨q, hq, ?_, ?_⟩
  · rw [Stop, hq, stopClose_all_ok results hok]
  · rw [Stop, hq, stopClose_first_fail good rest hgood]

/-- Concrete instantiation of `claim_C3_amended`: a fresh quit channel,
two clean listeners, and a close list whose second close errors. -/
theorem claim_C3_witness :
    ∃ q, SafeClose NewSigChannel = some q ∧
      Stop NewSigChannel [true, true] =
        some (q, StopOutcome.graceful, [true, true].length) ∧
      Stop NewSigChannel ([true] ++ false :: [true]) =
        some (q, StopOutcome.fatalExit, [true].length + 1) :=
  claim_C3_amended NewSigChannel [true, true] [true] [true]
    (by decide) (by decide) (by decide)

/-- Counterexample to claim C4: when listening on the configured port
fails, `NewServer` still records a binding — the nil listener mapped
to the application name — rather than skipping the port. -/
theorem claim_C4_counterexample :
    (NewServer oracleListenFails appsOnePort).listener = [(none, "a")] ∧
    (NewServer oracleListenFails appsOnePort).listener ≠ [] := by
  exact ⟨rfl, by decide⟩

/-- An insert always leaves its key-value pair in the map. -/
theorem mapInsert_mem_self (m : List (Option Nat × String))
    (k : Option Nat) (v : String) : (k, v) ∈ mapInsert m k v := by
  unfold mapInsert
  by_cases h : m.any (fun e => e.1 = k) = true
  · rw [if_pos h]
    obtain ⟨e, he, hk⟩ := List.any_eq_true.mp h
    exact List.mem_map.mpr ⟨e, he, by rw [if_pos (of_decide_eq_true hk)]⟩
  · rw [if_neg h]
    exact List.mem_append_right _ (List.mem_singleton_self _)

/-- An insert keeps every entry whose key differs from the inserted
one. -/
theorem mapInsert_mem_of_ne {m : List (Option Nat × String)}
    {e : Option Nat × String} (he : e ∈ m) {k : Option Nat}
    (hne : e.1 ≠ k) (v : String) : e ∈ mapInsert m k v := by
  unfold mapInsert
  by_cases h : m.any (fun x => x.1 = k) = true
  · rw [if_pos h]
    exact List.mem_map.mpr ⟨e, he, by rw [if_neg hne]⟩
  · rw [if_neg h]
    exact List.mem_append_left _ he

/-- Every entry of an insert is an old entry or carries the inserted
key. -/
theorem mapInsert_mem_elim {m : List (Option Nat × String)}
    {k : Option Nat} {v : String} {e : Option Nat × String}
    (he : e ∈ mapInsert m k v) : e ∈ m ∨ e.1 = k := by
  unfold mapInsert at he
  by_cases h : m.any (fun x => x.1 = k) = true
  · rw [if_pos h] at he
    obtain ⟨x, hx, hxe⟩ := List.mem_map.mp he
    by_cases hk : x.1 = k
    · right
      rw [if_pos hk] at hxe
      rw [← hxe]
    · left
      rw [if_neg hk] at hxe
      rw [← hxe]
      exact hx
  · rw [if_neg h] at he
    rcases List.mem_append.mp he with h1 | h1
    · left
      exact h1
    · right
      rw [List.mem_singleton.mp h1]

/-- Inserting a present key preserves the entry count. -/
theorem mapInsert_length_present {m : List (Option Nat × String)}
    {k : Option Nat} (h : m.any (fun e => e.1 = k) = true) (v : String) :
    (mapInsert m k v).length = m.length := by
  unfold mapInsert
  rw [if_pos h, List.length_map]

/-- Inserting an absent key appends one entry. -/
theorem mapInsert_length_absent {m : List (Option Nat × String)}
    {k : Option Nat} (h : ¬ m.any (fun e => e.1 = k) = true) (v : String) :
    (mapInsert m k v).length = m.length + 1 := by
  unfold mapInsert
  rw [if_neg h]
  simp

/-- Length change of an insert under the nil key, phrased through
`hasNil`. -/
theorem mapInsert_none_length (m : List (Option Nat × String))
    (v : String) :
    (mapInsert m none v).length =
      m.length + (if hasNil m = true then 0 else 1) := by
  unfold mapInsert hasNil
  by_cases h : m.any (fun e => e.1 = none) = true
  · rw [if_pos h, if_pos h, List.length_map]
    simp
  · rw [if_neg h, if_neg h]
    simp

/-- The nil key is present exactly when some entry carries it. -/
theorem hasNil_iff {m : List (Option Nat × String)} :
    hasNil m = true ↔ ∃ nm, ((none : Option Nat), nm) ∈ m := by
  unfold hasNil
  rw [List.any_eq_true]
  constructor
  · rintro ⟨⟨a, b⟩, he, hk⟩
    have ha : a = none := of_decide_eq_true hk
    subst ha
    exact ⟨b, he⟩
  · rintro ⟨nm, h⟩
    exact ⟨(none, nm), h, by simp⟩

/-- Inserting under a non-nil key does not change nil-key presence. -/
theorem hasNil_mapInsert_some (m : List (Option Nat × String))
    (i : Nat) (v : String) :
    hasNil (mapInsert m (some i) v) = hasNil m := by
  by_cases h : hasNil m = true
  · obtain ⟨nm, hm⟩ := hasNil_iff.mp h
    rw [h]
    exact hasNil_iff.mpr ⟨nm, mapInsert_mem_of_ne hm (by simp) v⟩
  · have h' : hasNil m = false := Bool.eq_false_iff.mpr h
    rw [h']
    rw [Bool.eq_false_iff]
    intro hc
    obtain ⟨nm, hm⟩ := hasNil_iff.mp hc
    rcases mapInsert_mem_elim hm with h1 | h1
    · exact h (hasNil_iff.mpr ⟨nm, h1⟩)
    · exact Option.noConfusion h1

/-- Inserting under the nil key makes the nil key present. -/
theorem hasNil_mapInsert_none (m : List (Option Nat × String))
    (v : String) : hasNil (mapInsert m none v) = true :=
  hasNil_iff.mpr ⟨v, mapInsert_mem_self m none v⟩

/-- All non-nil keys of the map are pointers already allocated. -/
def keysBelow (m : List (Option Nat × String)) (ctr : Nat) : Prop :=
  ∀ e ∈ m, ∀ i, e.1 = some i → i < ctr

/-- A larger allocation bound keeps `keysBelow`. -/
theorem keysBelow_mono {m : List (Option Nat × String)} {c1 c2 : Nat}
    (h : keysBelow m c1) (hle : c1 ≤ c2) : keysBelow m c2 :=
  fun e he i hei => Nat.lt_of_lt_of_le (h e he i hei) hle

/-- An insert whose key respects the allocation bound keeps
`keysBelow`. -/
theorem keysBelow_mapInsert {m : List (Option Nat × String)}
    {ctr : Nat} {k : Option Nat} {v : String} (h : keysBelow m ctr)
    (hk : ∀ i, k = some i → i < ctr) :
    keysBelow (mapInsert m k v) ctr := by
  intro e he i hei
  rcases mapInsert_mem_elim he with h1 | h1
  · exact h e h1 i hei
  · refine hk i ?_
    rw [← h1]
    exact hei

/-- Under `keysBelow`, the next pointer to allocate is a fresh key. -/
theorem not_any_fresh {m : List (Option Nat × String)} {ctr : Nat}
    (h : keysBelow m ctr) :
    ¬ m.any (fun e => e.1 = some ctr) = true := by
  intro hc
  obtain ⟨e, he, hk⟩ := List.any_eq_true.mp hc
  exact absurd (h e he ctr (of_decide_eq_true hk)) (Nat.lt_irrefl ctr)

/-- `listenStep` on a port whose listen succeeds. -/
theorem listenStep_ok {o : NetOracle} {p : Nat}
    (h : listenSucceeds o p = true) (ctr : Nat) :
    listenStep o p ctr = (some ctr, ctr + 1) := by
  unfold listenSucceeds at h
  simp only [listenStep]
  rw [if_pos h]

/-- `listenStep` on a port whose listen fails. -/
theorem listenStep_fail {o : NetOracle} {p : Nat}
    (h : listenSucceeds o p = false) (ctr : Nat) :
    listenStep o p ctr = (none, ctr) := by
  unfold listenSucceeds at h
  simp only [listenStep]
  rw [if_neg (by simp only [h]; exact Bool.false_ne_true)]

/-- Behaviour of the per-port loop of `NewServer`: the allocation
counter grows by the number of successful listens; the map grows by
one entry per successful listen plus one shared nil entry if any
listen fails and the nil key was absent; existing entries with
non-nil keys survive unchanged, a present nil entry stays present,
and every allocated pointer has an entry. -/
theorem setupPorts_spec (o : NetOracle) (name : String)
    (ports : List Nat) :
    ∀ m ctr, keysBelow m ctr →
      keysBelow (setupPorts o name ports m ctr).1
          (setupPorts o name ports m ctr).2 ∧
      (setupPorts o name ports m ctr).2 =
        ctr + (ports.filter (listenSucceeds o)).length ∧
      (setupPorts o name ports m ctr).1.length =
        m.length + (ports.filter (listenSucceeds o)).length +
          (if hasNil m = false ∧
              ports.any (fun p => !listenSucceeds o p) = true
           then 1 else 0) ∧
      hasNil (setupPorts o name ports m ctr).1 =
        (hasNil m || ports.any (fun p => !listenSucceeds o p)) ∧
      (∀ i nm, (some i, nm) ∈ m →
        (some i, nm) ∈ (setupPorts o name ports m ctr).1) ∧
      (∀ i, ctr ≤ i → i < (setupPorts o name ports m ctr).2 →
        ∃ nm, (some i, nm) ∈ (setupPorts o name ports m ctr).1) := by
  induction ports with
  | nil =>
    intro m ctr h
    refine ⟨h, by simp [setupPorts], by simp [setupPorts], by simp [setupPorts],
      fun i nm hm => hm, ?_⟩
    intro i h1 h2
    simp only [setupPorts] at h2
    omega
  | cons p rest ih =>
    intro m ctr h
    by_cases hs : listenSucceeds o p = true
    · have hstep := listenStep_ok hs ctr
      have hfresh := not_any_fresh h
      have hm1 : keysBelow (mapInsert m (some ctr) name) (ctr + 1) :=
        keysBelow_mapInsert (keysBelow_mono h (Nat.le_succ ctr))
          (fun i hi => by
            have hic := Option.some.inj hi
            omega)
      have hlen1 := mapInsert_length_absent hfresh name
      have hnil1 := hasNil_mapInsert_some m ctr name
      obtain ⟨i1, i2, i3, i4, i5, i6⟩ := ih (mapInsert m (some ctr) name)
        (ctr + 1) hm1
      have hred : setupPorts o name (p :: rest) m ctr =
          setupPorts o name rest (mapInsert m (some ctr) name) (ctr + 1) := by
        simp only [setupPorts, hstep]
      rw [hred]
      have hfilter : ((p :: rest).filter (listenSucceeds o)).length =
          (rest.filter (listenSucceeds o)).length + 1 := by
        simp [List.filter_cons, hs]
      have hany : ((p :: rest).any (fun q => !listenSucceeds o q)) =
          (rest.any (fun q => !listenSucceeds o q)) := by
        simp [hs]
      refine ⟨i1, by omega, ?_, ?_, ?_, ?_⟩
      · simp only [i3, hlen1, hnil1, hfilter, hany]
        cases hnv : hasNil m <;>
          cases hrv : (rest.any fun q => !listenSucceeds o q) <;>
          (try simp) <;> omega
      · simp only [i4, hnil1, hany]
      · intro i nm hm
        refine i5 i nm (mapInsert_mem_of_ne hm ?_ name)
        have := h (some i, nm) hm i rfl
        simp only [ne_eq, Option.some.injEq]
        omega
      · intro i h1 h2
        rcases Nat.eq_or_lt_of_le h1 with rfl | hlt
        · exact ⟨name, i5 ctr name (mapInsert_mem_self m (some ctr) name)⟩
        · exact i6 i hlt h2
    · have hs' : listenSucceeds o p = false := Bool.eq_false_iff.mpr hs
      have hstep := listenStep_fail hs' ctr
      have hm1 : keysBelow (mapInsert m none name) ctr :=
        keysBelow_mapInsert h (fun i hi => Option.noConfusion hi)
      have hnil1 := hasNil_mapInsert_none m name
      obtain ⟨i1, i2, i3, i4, i5, i6⟩ := ih (mapInsert m none name) ctr hm1
      have hred : setupPorts o name (p :: rest) m ctr =
          setupPorts o name rest (mapInsert m none name) ctr := by
        simp only [setupPorts, hstep]
      rw [hred]
      have hfilter : ((p :: rest).filter (listenSucceeds o)).length =
          (rest.filter (listenSucceeds o)).length := by
        simp [List.filter_cons, hs']
      have hany : ((p :: rest).any (fun q => !listenSucceeds o q)) = true := by
        simp [hs']
      refine ⟨i1, by omega, ?_, ?_, ?_, i6⟩
      · simp only [i3, hnil1, hfilter, hany, mapInsert_none_length]
        cases hnv : hasNil m
        all_goals simp
        all_goals omega
      · simp only [i4, hnil1, hany]
        simp
      · intro i nm hm
        exact i5 i nm (mapInsert_mem_of_ne hm (by simp) name)

/-- Behaviour of the per-application loop of `NewServer`: the same
facts as `setupPorts_spec`, accumulated over every application. -/
theorem setupApps_spec (o : NetOracle) (apps : List App) :
    ∀ m ctr, keysBelow m ctr →
      keysBelow (setupApps o apps m ctr).1 (setupApps o apps m ctr).2 ∧
      (setupApps o apps m ctr).2 =
        ctr + ((apps.flatMap App.ports).filter (listenSucceeds o)).length ∧
      (setupApps o apps m ctr).1.length =
        m.length + ((apps.flatMap App.ports).filter (listenSucceeds o)).length +
          (if hasNil m = false ∧
              (apps.flatMap App.ports).any (fun p => !listenSucceeds o p) = true
           then 1 else 0) ∧
      hasNil (setupApps o apps m ctr).1 =
        (hasNil m ||
          (apps.flatMap App.ports).any (fun p => !listenSucceeds o p)) ∧
      (∀ i nm, (some i, nm) ∈ m →
        (some i, nm) ∈ (setupApps o apps m ctr).1) ∧
      (∀ i, ctr ≤ i → i < (setupApps o apps m ctr).2 →
        ∃ nm, (some i, nm) ∈ (setupApps o apps m ctr).1) := by
  induction apps with
  | nil =>
    intro m ctr h
    refine ⟨h, by simp [setupApps], by simp [setupApps], by simp [setupApps],
      fun i nm hm => hm, ?_⟩
    intro i h1 h2
    simp only [setupApps] at h2
    omega
  | cons a rest ih =>
    intro m ctr h
    obtain ⟨p1, p2, p3, p4, p5, p6⟩ := setupPorts_spec o a.name a.ports m ctr h
    obtain ⟨i1, i2, i3, i4, i5, i6⟩ := ih (setupPorts o a.name a.ports m ctr).1
      (setupPorts o a.name a.ports m ctr).2 p1
    have hred : setupApps o (a :: rest) m ctr =
        setupApps o rest (setupPorts o a.name a.ports m ctr).1
          (setupPorts o a.name a.ports m ctr).2 := by
      simp only [setupApps]
    rw [hred]
    have hflat : ((a :: rest).flatMap App.ports) =
        a.ports ++ rest.flatMap App.ports := List.flatMap_cons a rest App.ports
    have hfilter :
        (((a :: rest).flatMap App.ports).filter (listenSucceeds o)).length =
          (a.ports.filter (listenSucceeds o)).length +
            ((rest.flatMap App.ports).filter (listenSucceeds o)).length := by
      rw [hflat, List.filter_append, List.length_append]
    have hany : (((a :: rest).flatMap App.ports).any
          (fun p => !listenSucceeds o p)) =
        ((a.ports.any (fun p => !listenSucceeds o p)) ||
          ((rest.flatMap App.ports).any (fun p => !listenSucceeds o p))) := by
      rw [hflat, List.any_append]
    refine ⟨i1, by omega, ?_, ?_, fun i nm hm => i5 i nm (p5 i nm hm), ?_⟩
    · simp only [i3, p3, p4, hfilter, hany]
      cases hnv : hasNil m <;>
        cases hav : (a.ports.any fun p => !listenSucceeds o p) <;>
        cases hrv : ((rest.flatMap App.ports).any fun p => !listenSucceeds o p) <;>
        (try simp) <;> omega
    · simp only [i4, p4, hany, Bool.or_assoc]
    · intro i h1 h2
      by_cases hi : i < (setupPorts o a.name a.ports m ctr).2
      · obtain ⟨nm, hm⟩ := p6 i h1 hi
        exact ⟨nm, i5 i nm hm⟩
      · exact i6 i (Nat.le_of_not_lt hi) h2

/-- Claim C4 amended: a resolve or listen failure during `NewServer`
is logged and startup continues unaffected — every application still
gets its server pool and health checker, and every successful listen
still gets its own entry in the listener map — but the failed port is
not skipped from the binding map: the nil listener is recorded under
the application name.  Because the map is keyed by the listener
pointer and every failed listen yields the same nil pointer, all
failed ports collapse into a single nil entry (later failures
overwrite it), so the map holds one entry per successful listen plus
exactly one nil entry when any port failed. -/
theorem claim_C4_amended (o : NetOracle) (apps : List App) :
    (NewServer o apps).serverPool.map Prod.fst = apps.map App.name ∧
    (NewServer o apps).serverPool.map Prod.snd =
      apps.map (fun a => NewServerPool a.targets) ∧
    (NewServer o apps).listener.length =
      countListenOk o apps +
        (if anyListenFail o apps = true then 1 else 0) ∧
    (anyListenFail o apps = true →
      ∃ nm, ((none : Option Nat), nm) ∈ (NewServer o apps).listener) ∧
    (∀ i, i < countListenOk o apps →
      ∃ nm, (some i, nm) ∈ (NewServer o apps).listener) := by
  have h0 : keysBelow [] 0 := fun e he => absurd he (List.not_mem_nil e)
  obtain ⟨s1, s2, s3, s4, s5, s6⟩ := setupApps_spec o apps [] 0 h0
  have hL : (NewServer o apps).listener = (setupApps o apps [] 0).1 := rfl
  refine ⟨by simp [NewServer, setupPools], by simp [NewServer, setupPools],
    ?_, ?_, ?_⟩
  · rw [hL, s3]
    simp only [countListenOk, anyListenFail, List.length_nil, Nat.zero_add]
    simp [hasNil]
  · intro hfail
    rw [hL]
    refine hasNil_iff.mp ?_
    rw [s4]
    simp only [anyListenFail] at hfail
    rw [hfail]
    simp [hasNil]
  · intro i hi
    rw [hL]
    refine s6 i (Nat.zero_le i) ?_
    rw [s2]
    simpa [countListenOk] using hi

/-- Concrete instantiation of `claim_C4_amended` at a configuration
with two ports whose listens both fail: both failed ports collapse
into the single nil-listener entry, which is recorded rather than
skipped, and the server pool is still built. -/
theorem claim_C4_witness :
    (NewServer oracleListenFails appsTwoPorts).serverPool.map Prod.fst =
      appsTwoPorts.map App.name ∧
    (NewServer oracleListenFails appsTwoPorts).serverPool.map Prod.snd =
      appsTwoPorts.map (fun a => NewServerPool a.targets) ∧
    (NewServer oracleListenFails appsTwoPorts).listener.length =
      countListenOk oracleListenFails appsTwoPorts +
        (if anyListenFail oracleListenFails appsTwoPorts = true
         then 1 else 0) ∧
    ∃ nm, ((none : Option Nat), nm) ∈
      (NewServer oracleListenFails appsTwoPorts).listener := by
  have h := claim_C4_amended oracleListenFails appsTwoPorts
  exact ⟨h.1, h.2.1, h.2.2.1, h.2.2.2.1 (by decide)⟩

/-- Counterexample to claim C5: with an application whose only backend
is dead, `proxyConnection` closes the inbound connection and performs
no relay — but it still invokes the dial routine, handing `DialTCP`
the empty remote address, so an outbound dial is attempted (and fails
at address resolution), contrary to the claim. -/
theorem claim_C5_counterexample :
    proxyConnection (fun _ => true) srvDeadBackend "a" =
      some ({ dialedAddr := some "", dialSucceeded := false,
              relayed := false, connClosed := true },
        { backends := [⟨"t", false⟩], current := 1 }) ∧
    (some "" : Option String) ≠ none := by
  exact ⟨rfl, by decide⟩

/-- Claim C5 amended: when no backend of the owning application is
alive, the inbound connection is closed immediately, nothing is
relayed, and there is no retry; the dial routine is nevertheless still
invoked with the empty remote address and fails at address resolution,
so no outbound connection is ever established. -/
theorem claim_C5_amended (connectOk : String → Bool) (srv : Server)
    (appName : String) (pool : ServerPool)
    (hlook : lookupPool srv.serverPool appName = some pool)
    (hn : 0 < pool.backends.length)
    (hdead : ∀ b ∈ pool.backends, b.alive = false) :
    proxyConnection connectOk srv appName =
      some ({ dialedAddr := some "", dialSucceeded := false,
              relayed := false, connClosed := true },
        { pool with current := (pool.current + 1) % U64 }) := by
  have hall := scanFrom_all_dead hn hdead pool.backends.length
    (((pool.current + 1) % U64) % pool.backends.length)
  have heq := getNextPeer_scan_none hn hall
  simp [proxyConnection, hlook, heq, DialTCP]

/-- Concrete instantiation of `claim_C5_amended` at the sample server
with a single dead backend. -/
theorem claim_C5_witness :
    proxyConnection (fun _ => false) srvDeadBackend "a" =
      some ({ dialedAddr := some "", dialSucceeded := false,
              relayed := false, connClosed := true },
        { ServerPool.mk [⟨"t", false⟩] 0 with
            current := ((ServerPool.mk [⟨"t", false⟩] 0).current + 1) % U64 }) :=
  claim_C5_amended (fun _ => false) srvDeadBackend "a"
    (ServerPool.mk [⟨"t", false⟩] 0) rfl (by decide) (by decide)

end TCPProxy
